import Mathlib

/-!
Verification of the NAIL_Search repository (a PCB test-point viewer).
The development shallowly embeds the three components the claims are
about: the text parser (src/services/parser.ts, parseNailFile), the
viewport engine (src/components/PinMap.tsx) and the search controller
(src/App.tsx).  JavaScript numbers are modelled exactly as rationals
extended with the two infinities and NaN (float rounding and overflow
are not modelled; the special value Infinity produced by parseFloat is).
All string data is modelled on character lists; character classes follow
the ECMAScript definitions restricted as noted in each definition.
-/

namespace NailSearch

/-- Model of a JavaScript number: an exact rational, one of the two
infinities, or NaN.  Signed zero is collapsed to 0 (JavaScript treats
them as equal in every comparison the source performs). -/
inductive JSNum where
  | finite (q : ℚ)
  | posInf
  | negInf
  | nan
deriving DecidableEq, Repr

/-- The NaN test used by the source via the global isNaN on numbers. -/
def JSNum.isNaN : JSNum → Bool
  | .nan => true
  | _ => false

/-- The finiteness predicate (Number.isFinite); used to formalise the
wording of the specification, not by the code itself. -/
def JSNum.isFinite : JSNum → Bool
  | .finite _ => true
  | _ => false

/-- JavaScript comparison a <= b (false whenever an operand is NaN). -/
def jsLe : JSNum → JSNum → Bool
  | .nan, _ => false
  | _, .nan => false
  | .negInf, _ => true
  | _, .posInf => true
  | .posInf, _ => false
  | _, .negInf => false
  | .finite a, .finite b => decide (a ≤ b)

/-- JavaScript comparison a < b (false whenever an operand is NaN). -/
def jsLt : JSNum → JSNum → Bool
  | .nan, _ => false
  | _, .nan => false
  | .negInf, .negInf => false
  | .negInf, _ => true
  | _, .negInf => false
  | .posInf, _ => false
  | .finite a, .finite b => decide (a < b)
  | .finite _, .posInf => true

/-- JavaScript addition on the extended number line. -/
def jsAdd : JSNum → JSNum → JSNum
  | .nan, _ => .nan
  | _, .nan => .nan
  | .finite a, .finite b => .finite (a + b)
  | .posInf, .negInf => .nan
  | .negInf, .posInf => .nan
  | .posInf, _ => .posInf
  | _, .posInf => .posInf
  | .negInf, _ => .negInf
  | _, .negInf => .negInf

/-- JavaScript subtraction on the extended number line. -/
def jsSub : JSNum → JSNum → JSNum
  | .nan, _ => .nan
  | _, .nan => .nan
  | .finite a, .finite b => .finite (a - b)
  | .posInf, .posInf => .nan
  | .negInf, .negInf => .nan
  | .posInf, _ => .posInf
  | .negInf, _ => .negInf
  | _, .posInf => .negInf
  | _, .negInf => .posInf

/-- JavaScript multiplication on the extended number line
(zero times an infinity is NaN). -/
def jsMul : JSNum → JSNum → JSNum
  | .nan, _ => .nan
  | _, .nan => .nan
  | .finite a, .finite b => .finite (a * b)
  | .posInf, .posInf => .posInf
  | .posInf, .negInf => .negInf
  | .negInf, .posInf => .negInf
  | .negInf, .negInf => .posInf
  | .posInf, .finite b => if b = 0 then .nan else if 0 < b then .posInf else .negInf
  | .finite a, .posInf => if a = 0 then .nan else if 0 < a then .posInf else .negInf
  | .negInf, .finite b => if b = 0 then .nan else if 0 < b then .negInf else .posInf
  | .finite a, .negInf => if a = 0 then .nan else if 0 < a then .negInf else .posInf

/-- JavaScript division on the extended number line.  Division by zero
uses the positive-zero convention (signed zero is not modelled); the
source never divides by zero on the paths the claims are about. -/
def jsDiv : JSNum → JSNum → JSNum
  | .nan, _ => .nan
  | _, .nan => .nan
  | .finite a, .finite b =>
      if b = 0 then (if a = 0 then .nan else if 0 < a then .posInf else .negInf)
      else .finite (a / b)
  | .finite _, .posInf => .finite 0
  | .finite _, .negInf => .finite 0
  | .posInf, .finite b => if 0 ≤ b then .posInf else .negInf
  | .negInf, .finite b => if 0 ≤ b then .negInf else .posInf
  | .posInf, _ => .nan
  | .negInf, _ => .nan

/-- Math.min on two arguments (NaN-propagating). -/
def jsMin (a b : JSNum) : JSNum :=
  if a.isNaN || b.isNaN then .nan else if jsLe a b then a else b

/-- Math.max on two arguments (NaN-propagating). -/
def jsMax (a b : JSNum) : JSNum :=
  if a.isNaN || b.isNaN then .nan else if jsLe a b then b else a

/-- Math.min over a spread list of arguments (empty call yields +Infinity). -/
def jsMinList (xs : List JSNum) : JSNum := xs.foldl jsMin .posInf

/-- Math.max over a spread list of arguments (empty call yields -Infinity). -/
def jsMaxList (xs : List JSNum) : JSNum := xs.foldl jsMax .negInf

/-! ### Character classes and string primitives -/

/-- ECMAScript whitespace (the class matched by \s, String.prototype.trim
and the white space skipped by parseFloat): space, tab, line terminators,
and the Unicode space separators. -/
def isJsSpace (c : Char) : Bool :=
  c = ' ' || c = '\t' || c = '\n' || c = '\r' || c = '\x0b' || c = '\x0c' ||
  c = '\u00a0' || c = '\u1680' || ('\u2000' ≤ c && c ≤ '\u200a') ||
  c = '\u2028' || c = '\u2029' || c = '\u202f' || c = '\u205f' ||
  c = '\u3000' || c = '\ufeff'

/-- ECMAScript word character, the class matched by \w: [A-Za-z0-9_]. -/
def isWordChar (c : Char) : Bool := c.isAlphanum || c = '_'

/-- String.prototype.trim: strip leading and trailing JS whitespace. -/
def jsTrim (cs : List Char) : List Char :=
  ((cs.dropWhile isJsSpace).reverse.dropWhile isJsSpace).reverse

/-- content.split(a newline): line splitting as performed by the parser. -/
def splitLines : List Char → List (List Char)
  | [] => [[]]
  | c :: rest =>
    if c = '\n' then [] :: splitLines rest
    else
      match splitLines rest with
      | l :: ls => (c :: l) :: ls
      | [] => [[c]]

mutual

/-- Accumulating worker for the whitespace-run tokenizer. -/
def splitWsAux : List Char → List Char → List (List Char)
  | [], acc => [acc.reverse]
  | c :: rest, acc =>
    if isJsSpace c then acc.reverse :: splitWsSkip rest
    else splitWsAux rest (c :: acc)

/-- Worker skipping the remainder of a whitespace run. -/
def splitWsSkip : List Char → List (List Char)
  | [] => [[]]
  | c :: rest => if isJsSpace c then splitWsSkip rest else splitWsAux rest [c]

end

/-- trimmed.split on the regex of one-or-more whitespace: tokens between
maximal whitespace runs (with the same empty leading/trailing pieces the
JavaScript call produces). -/
def splitWs (cs : List Char) : List (List Char) := splitWsAux cs []

/-- Does sep occur as a contiguous substring?  Model of
String.prototype.includes. -/
def hasOcc (sep : List Char) : List Char → Bool
  | [] => sep.isEmpty
  | c :: rest => sep.isPrefixOf (c :: rest) || hasOcc sep rest

/-- s.includes(sub) on strings. -/
def jsIncludes (s sub : String) : Bool := hasOcc sub.data s.data

/-- s.toLowerCase(), modelled on the ASCII range (the source only ever
compares identifiers and net names, which are ASCII in the format). -/
def jsToLower (s : String) : String := String.mk (s.data.map Char.toLower)

/-- The literal separator string given to split and includes for the
virtual-pin suffix. -/
def tpinLit : List Char := ['T', ' ', 'P', 'I', 'N']

/-- Everything strictly before the first occurrence of the literal
separator (the whole list when it does not occur). -/
def beforeFirstTPin : List Char → List Char
  | [] => []
  | c :: rest =>
    if tpinLit.isPrefixOf (c :: rest) then []
    else c :: beforeFirstTPin rest

/-- Everything strictly after the first occurrence of the literal
separator, or none when it does not occur. -/
def afterFirstTPin : List Char → Option (List Char)
  | [] => none
  | c :: rest =>
    if tpinLit.isPrefixOf (c :: rest) then some (rest.drop 4)
    else afterFirstTPin rest

/-- remaining.split of the literal separator: accumulating worker walking
to each occurrence in turn (the JavaScript split semantics for a plain
string separator). -/
def splitTPinAux (cs : List Char) (acc : List Char) : List (List Char) :=
  match cs with
  | [] => [acc.reverse]
  | c :: rest =>
    if tpinLit.isPrefixOf (c :: rest) then
      acc.reverse :: splitTPinAux (rest.drop 4) []
    else
      splitTPinAux rest (c :: acc)
termination_by cs.length
decreasing_by
  · simp only [List.length_drop, List.length_cons]; omega
  · simp only [List.length_cons]; omega

/-- remaining.split of the literal virtual-pin separator. -/
def splitTPin (cs : List Char) : List (List Char) := splitTPinAux cs []

/-- Does the regex fragment of whitespace-plus, capital T,
whitespace-plus, capital P capital I capital N match at the head of the
list?  The two greedy whitespace quantifiers are deterministic here
because the character that must follow each run is never whitespace. -/
def wsTpinAt (cs : List Char) : Bool :=
  match cs with
  | c :: _ =>
    isJsSpace c &&
      (match cs.dropWhile isJsSpace with
       | 'T' :: r2 =>
         (match r2 with
          | d :: _ =>
            isJsSpace d &&
              (match r2.dropWhile isJsSpace with
               | 'P' :: 'I' :: 'N' :: _ => true
               | _ => false)
          | [] => false)
       | _ => false)
  | [] => false

/-- remaining.match against the anchored lazy pattern used for the net
name: the capture group is the shortest prefix after which the
whitespace-T-whitespace-PIN fragment matches; none when the whole
pattern fails.  (The dot of the lazy group excludes line terminators,
which cannot occur in the token tail, all whitespace having been
consumed by tokenization.) -/
def findTPinSplit : List Char → Option (List Char)
  | [] => none
  | c :: rest =>
    if wsTpinAt (c :: rest) then some []
    else (findTPinSplit rest).map (fun l => c :: l)

/-! ### The date regexes -/

/-- The continuation of both date patterns after the leading day digits:
a dash, a greedy word-character run, a dash and exactly four digits.
Returns the rest of the input after the four digits together with the
characters matched so far, or none.  Greedy backtracking is deterministic
here: a shortened word run would have to be followed by a dash, but every
character it gives back is a word character. -/
def dateCore (cs : List Char) : Option (List Char × List Char) :=
  match cs with
  | '-' :: r1 =>
    let w := r1.takeWhile isWordChar
    if w.isEmpty then none
    else
      match r1.dropWhile isWordChar with
      | '-' :: r2 =>
        let y4 := r2.take 4
        if y4.length == 4 && y4.all Char.isDigit then
          some ('-' :: (w ++ '-' :: y4), r2.drop 4)
        else none
      | _ => none
  | _ => none

/-- The tail of the full date-time pattern after the year: a greedy
whitespace run then two digits, a colon and two digits. -/
def dateTimeTail (cs : List Char) : Option (List Char) :=
  let sp := cs.takeWhile isJsSpace
  if sp.isEmpty then none
  else
    match cs.dropWhile isJsSpace with
    | h1 :: h2 :: ':' :: m1 :: m2 :: _ =>
      if h1.isDigit && h2.isDigit && m1.isDigit && m2.isDigit then
        some (sp ++ [h1, h2, ':', m1, m2])
      else none
    | _ => none

/-- Attempt the full date-time pattern at the current position for a
given choice of leading day digits. -/
def dateFullWith (ds : List Char) (cs : List Char) : Option (List Char) :=
  match dateCore cs with
  | some (core, rest) =>
    match dateTimeTail rest with
    | some t => some (ds ++ core ++ t)
    | none => none
  | none => none

/-- Attempt the full date-time pattern at the current position: the day
quantifier of one-or-two digits is greedy, so two digits are tried before
one. -/
def dateFullAt : List Char → Option (List Char)
  | [] => none
  | d1 :: r =>
    if d1.isDigit then
      match r with
      | d2 :: r2 =>
        if d2.isDigit then
          match dateFullWith [d1, d2] r2 with
          | some m => some m
          | none => dateFullWith [d1] r
        else dateFullWith [d1] r
      | [] => dateFullWith [d1] []
    else none

/-- Leftmost match of the full date-time pattern
(digits, dash, word, dash, four digits, whitespace, HH colon MM);
the value is the matched substring, as returned by match()[0]. -/
def dateSearch : List Char → Option (List Char)
  | [] => none
  | c :: rest =>
    match dateFullAt (c :: rest) with
    | some m => some m
    | none => dateSearch rest

/-- Attempt the guard pattern (digits, dash, word, dash, four digits) at
the current position, trying two day digits before one. -/
def dateGuardAt : List Char → Bool
  | [] => false
  | d1 :: r =>
    if d1.isDigit then
      match r with
      | d2 :: r2 =>
        if d2.isDigit then
          (dateCore r2).isSome || (dateCore r).isSome
        else (dateCore r).isSome
      | [] => (dateCore []).isSome
    else false

/-- The test() call of the guard regex: some position matches the
digits-dash-word-dash-four-digits pattern. -/
def dateGuardSearch : List Char → Bool
  | [] => false
  | c :: rest => dateGuardAt (c :: rest) || dateGuardSearch rest

/-! ### parseFloat -/

/-- Decimal value of a digit run. -/
def digitsVal (ds : List Char) : Nat :=
  ds.foldl (fun n c => n * 10 + (c.toNat - 48)) 0

/-- Ten to a natural power, as a rational. -/
def pow10 (n : Nat) : ℚ := ((10 ^ n : ℕ) : ℚ)

/-- Scale a rational by ten to an integer power. -/
def tenExp (e : Int) (q : ℚ) : ℚ :=
  match e with
  | Int.ofNat n => q * pow10 n
  | Int.negSucc n => q / pow10 (n + 1)

/-- parseFloat after the optional sign: the Infinity keyword, or the
longest decimal-literal prefix (digits, optional fraction, optional
exponent); NaN when no prefix is a literal.  Exact rational semantics:
rounding to binary floating point and overflow to Infinity are not
modelled. -/
def parseFloatSigned (neg : Bool) (cs : List Char) : JSNum :=
  if List.isPrefixOf ['I', 'n', 'f', 'i', 'n', 'i', 't', 'y'] cs then
    if neg then JSNum.negInf else JSNum.posInf
  else
    let intD := cs.takeWhile Char.isDigit
    let rest1 := cs.dropWhile Char.isDigit
    let fracD := match rest1 with
      | '.' :: r => r.takeWhile Char.isDigit
      | _ => []
    let rest2 := match rest1 with
      | '.' :: r => r.dropWhile Char.isDigit
      | _ => rest1
    if intD.isEmpty && fracD.isEmpty then JSNum.nan
    else
      let base : ℚ :=
        ((digitsVal intD : ℚ) * pow10 fracD.length + (digitsVal fracD : ℚ)) /
          pow10 fracD.length
      let expv : Int := match rest2 with
        | e :: r =>
          if e = 'e' ∨ e = 'E' then
            match r with
            | '-' :: r2 =>
              if (r2.takeWhile Char.isDigit).isEmpty then 0
              else -(digitsVal (r2.takeWhile Char.isDigit) : Int)
            | '+' :: r2 =>
              if (r2.takeWhile Char.isDigit).isEmpty then 0
              else (digitsVal (r2.takeWhile Char.isDigit) : Int)
            | r2 =>
              if (r2.takeWhile Char.isDigit).isEmpty then 0
              else (digitsVal (r2.takeWhile Char.isDigit) : Int)
          else 0
        | [] => 0
      let v := tenExp expv base
      JSNum.finite (if neg then -v else v)

/-- parseFloat: skip leading whitespace, read an optional sign, then the
signed body. -/
def parseFloatJS (cs : List Char) : JSNum :=
  match cs.dropWhile isJsSpace with
  | '-' :: r => parseFloatSigned true r
  | '+' :: r => parseFloatSigned false r
  | r => parseFloatSigned false r

/-! ### The data model (src/types.ts) -/

/-- NailData: one parsed test point. -/
structure NailData where
  id : String
  x : JSNum
  y : JSNum
  type : String
  grid : String
  side : String
  netId : String
  netName : String
  virtualPin : String
deriving DecidableEq, Repr

/-- The metadata block of a parse result. -/
structure Metadata where
  fileName : String
  totalNails : Nat
  units : String
  date : String
deriving DecidableEq, Repr

/-- The bounds block of a parse result. -/
structure Bounds where
  minX : JSNum
  maxX : JSNum
  minY : JSNum
  maxY : JSNum
deriving DecidableEq, Repr

/-- ParseResult: the dataset produced by one successful parse. -/
structure ParseResult where
  nails : List NailData
  metadata : Metadata
  bounds : Bounds
deriving DecidableEq, Repr

/-! ### The parser (src/services/parser.ts) -/

/-- The body of the dollar branch of parseNailFile: tokenize the trimmed
line, and accept it when it has at least seven tokens and both
coordinates parse to non-NaN numbers. -/
def parseRow (trimmed : List Char) : Option NailData :=
  let parts := splitWs trimmed
  if 7 ≤ parts.length then
    let id := parts.getD 0 []
    let x := parseFloatJS (parts.getD 1 [])
    let y := parseFloatJS (parts.getD 2 [])
    let ty := parts.getD 3 []
    let grid := parts.getD 4 []
    let side := (parts.getD 5 []).filter (fun c => !(c = '(' || c = ')'))
    let netId := parts.getD 6 []
    let remaining := List.intercalate [' '] (parts.drop 7)
    let netName := match findTPinSplit remaining with
      | some l => l
      | none => match parts.getD 7 [] with
        | [] => ['N', '/', 'A']
        | t => t
    let virtualPin :=
      if hasOcc tpinLit remaining then jsTrim ((splitTPin remaining).getD 1 [])
      else []
    if !x.isNaN && !y.isNaN then
      some { id := String.mk id, x := x, y := y, type := String.mk ty,
             grid := String.mk grid, side := String.mk side,
             netId := String.mk netId, netName := String.mk netName,
             virtualPin := String.mk virtualPin }
    else none
  else none

/-- The mutable scan state of the forEach loop in parseNailFile. -/
structure ScanState where
  units : String
  date : String
  nails : List NailData
deriving DecidableEq, Repr

/-- One iteration of the forEach loop of parseNailFile: header metadata
extraction (units, date) followed by the dollar-marked data-row branch. -/
def scanLine (st : ScanState) (line : List Char) : ScanState :=
  let trimmed := jsTrim line
  let units1 := if hasOcc "Metric units".data trimmed then "Metric" else st.units
  let units2 := if hasOcc "Imperial units".data trimmed then "Imperial" else units1
  let date1 :=
    if dateGuardSearch trimmed then
      match dateSearch trimmed with
      | some m => String.mk m
      | none => st.date
    else st.date
  let nails1 :=
    if trimmed.head? = some '$' then
      match parseRow trimmed with
      | some n => st.nails ++ [n]
      | none => st.nails
    else st.nails
  { units := units2, date := date1, nails := nails1 }

/-- parseNailFile: split into lines, scan them, fail when no row was
accepted, otherwise assemble the dataset with its bounds. -/
def parseNailFile (content fileName : String) : Except String ParseResult :=
  let lines := splitLines content.data
  let st := lines.foldl scanLine { units := "Unknown", date := "", nails := [] }
  if st.nails.length = 0 then
    .error "No valid nail data found. Please ensure the file is in Tebo-ICT or compatible .asc format."
  else
    .ok { nails := st.nails
        , metadata := { fileName := fileName, totalNails := st.nails.length,
                        units := st.units, date := st.date }
        , bounds := { minX := jsMinList (st.nails.map (fun n => n.x))
                    , maxX := jsMaxList (st.nails.map (fun n => n.x))
                    , minY := jsMinList (st.nails.map (fun n => n.y))
                    , maxY := jsMaxList (st.nails.map (fun n => n.y)) } }

/-! ### The viewport engine (src/components/PinMap.tsx) -/

/-- The transient view state of PinMap: zoom and pan offset. -/
structure ViewState where
  zoom : JSNum
  offsetX : JSNum
  offsetY : JSNum
deriving DecidableEq, Repr

/-- The wheel handler: ten percent per tick, direction from the sign of
deltaY, clamped into [0.05, 100]. -/
def handleWheel (deltaY : JSNum) (prev : JSNum) : JSNum :=
  let zoomFactor : JSNum := if jsLt (.finite 0) deltaY then .finite (9 / 10) else .finite (11 / 10)
  jsMin (jsMax (jsMul prev zoomFactor) (.finite (1 / 20))) (.finite 100)

/-- The plus step button: zoom times 1.5, no clamping in the source. -/
def zoomStepIn (z : JSNum) : JSNum := jsMul z (.finite (3 / 2))

/-- The minus step button: zoom times 0.7, no clamping in the source. -/
def zoomStepOut (z : JSNum) : JSNum := jsMul z (.finite (7 / 10))

/-- The reset button: zoom one, offset zero. -/
def resetView : ViewState := { zoom := .finite 1, offsetX := .finite 0, offsetY := .finite 0 }

/-- The centre-on-active-pin effect of PinMap: when the focused id is a
non-empty string and names a point of the dataset, force the zoom to at
least 10 and recompute the offset so the point lands on the centre of
the padded logical frame; otherwise leave the view unchanged. -/
def focusOn (pr : ParseResult) (pid : String) (vs : ViewState) : ViewState :=
  if pid = "" then vs
  else
    match pr.nails.find? (fun n => n.id == pid) with
    | some pin =>
      let padding : JSNum := .finite 20
      let width := jsAdd (jsSub pr.bounds.maxX pr.bounds.minX) (jsMul padding (.finite 2))
      let height := jsAdd (jsSub pr.bounds.maxY pr.bounds.minY) (jsMul padding (.finite 2))
      let viewBoxX := jsSub pr.bounds.minX padding
      let viewBoxY := jsSub pr.bounds.minY padding
      let centerX := jsAdd viewBoxX (jsDiv width (.finite 2))
      let centerY := jsAdd viewBoxY (jsDiv height (.finite 2))
      let targetZoom := jsMax vs.zoom (.finite 10)
      { zoom := targetZoom
      , offsetX := jsSub (jsDiv centerX targetZoom) pin.x
      , offsetY := jsSub (jsDiv centerY targetZoom) pin.y }
    | none => vs

/-- The svg group transform scale(zoom) translate(offset): a data point
maps to zoom times the sum of the point and the offset, per axis. -/
def applyView (vs : ViewState) (px py : JSNum) : JSNum × JSNum :=
  (jsMul vs.zoom (jsAdd px vs.offsetX), jsMul vs.zoom (jsAdd py vs.offsetY))

/-! ### The search controller (src/App.tsx) -/

/-- The two search modes of the toolbar. -/
inductive SearchMode where
  | nail
  | net
deriving DecidableEq, Repr

/-- filteredResults: empty for a blank (all-whitespace) query, otherwise
the dataset points whose id (nail mode) or net name (net mode) contains
the lowercased query. -/
def filteredResults (nails : List NailData) (query : String) (mode : SearchMode) : List NailData :=
  if jsTrim query.data = [] then []
  else
    let q := jsToLower query
    nails.filter (fun n =>
      match mode with
      | .nail => jsIncludes (jsToLower n.id) q
      | .net => jsIncludes (jsToLower n.netName) q)

/-- The search-navigation state of App: the selected match index and the
active pin id handed to the viewport as focus target. -/
structure SearchNav where
  activeResultIndex : Int
  activePinId : Option String
deriving DecidableEq, Repr

/-- The effect resetting the selected index whenever the query text or
the mode changes. -/
def resetIndex (st : SearchNav) : SearchNav := { st with activeResultIndex := -1 }

/-- handleSearchKeyDown on Enter: with at least one match, advance the
index by one modulo the match count (the dividend is non-negative in
every reachable state, so the JavaScript remainder agrees with emod) and
emit the id of that match; with zero matches, do nothing. -/
def cycleEnter (results : List NailData) (st : SearchNav) : SearchNav :=
  if 0 < results.length then
    let nextIndex : Int := (st.activeResultIndex + 1) % (results.length : Int)
    { activeResultIndex := nextIndex
    , activePinId := (results[nextIndex.toNat]?).map (fun n => n.id) }
  else st

/-- k consecutive Enter presses. -/
def cycleIter (results : List NailData) : Nat → SearchNav → SearchNav
  | 0, st => st
  | k + 1, st => cycleEnter results (cycleIter results k st)

/-! ### Derived per-line views of the scan loop

These definitions restate one forEach iteration of parseNailFile one
observable component at a time; lemmas below prove them equal to the
corresponding component of scanLine. -/

/-- The point accepted from one raw line, if any: the dollar test on the
trimmed line followed by the row parse. -/
def rowOf (line : List Char) : Option NailData :=
  if (jsTrim line).head? = some '$' then parseRow (jsTrim line) else none

/-- The units component of one scan iteration: the Imperial test runs
after the Metric test, so it wins when both substrings occur. -/
def unitsStep (u : String) (line : List Char) : String :=
  let t := jsTrim line
  if hasOcc "Imperial units".data t then "Imperial"
  else if hasOcc "Metric units".data t then "Metric"
  else u

/-- The date component of one scan iteration: the guard regex is implied
by a successful full match, so the date is overwritten exactly when the
full pattern matches. -/
def dateStep (d : String) (line : List Char) : String :=
  match dateSearch (jsTrim line) with
  | some m => String.mk m
  | none => d

/-- All points accepted from an input, in line order. -/
def acceptedRows (content : String) : List NailData :=
  (splitLines content.data).filterMap rowOf

/-! ### Specification-side definitions

The following definitions transcribe the wording of the claims (not the
source); the claim theorems compare them with the source embedding
above. -/

/-- The tail of an accepted row: tokens seven onward rejoined with
single spaces. -/
def rowTail (trimmed : List Char) : List Char :=
  List.intercalate [' '] ((splitWs trimmed).drop 7)

/-- Wording of claim C4: a line is a valid point when its trimmed form
starts with the dollar marker, tokenizes into at least seven tokens and
both coordinate tokens parse to finite numbers. -/
def rowAcceptedFiniteB (line : List Char) : Bool :=
  let t := jsTrim line
  let parts := splitWs t
  t.head? = some '$' && 7 ≤ parts.length &&
    (parseFloatJS (parts.getD 1 [])).isFinite &&
    (parseFloatJS (parts.getD 2 [])).isFinite

/-- Amended acceptance condition: as claim C4, with non-NaN in place of
finite (the check the source actually performs, which also accepts the
Infinity keyword). -/
def rowAcceptedNaNB (line : List Char) : Bool :=
  let t := jsTrim line
  let parts := splitWs t
  t.head? = some '$' && 7 ≤ parts.length &&
    !(parseFloatJS (parts.getD 1 [])).isNaN &&
    !(parseFloatJS (parts.getD 2 [])).isNaN

/-- Wording of claim C6: the recorded date is the full match of the
date-time pattern on the last line that has one, and empty otherwise. -/
def lastDateSpec (lines : List (List Char)) : String :=
  match lines.reverse.findSome? (fun l => dateSearch (jsTrim l)) with
  | some m => String.mk m
  | none => ""

/-- Wording of claim C5: the virtual pin is everything after the first
occurrence of the marker, trimmed (empty without a marker). -/
def specVirtualPinAfter (tail : List Char) : List Char :=
  match afterFirstTPin tail with
  | none => []
  | some rest => jsTrim rest

/-- Amended wording of claim C5: the virtual pin is the segment strictly
between the first occurrence of the marker and the next occurrence after
it (to the end of the tail when there is no second occurrence), trimmed;
empty without a marker. -/
def specVirtualPinBetween (tail : List Char) : List Char :=
  match afterFirstTPin tail with
  | none => []
  | some rest => jsTrim (beforeFirstTPin rest)

/-- Wording of claim C9: case-insensitive substring containment of the
query in the id (nail mode) or the net name (net mode). -/
def matchesQuery (mode : SearchMode) (query : String) (n : NailData) : Bool :=
  match mode with
  | .nail => jsIncludes (jsToLower n.id) (jsToLower query)
  | .net => jsIncludes (jsToLower n.netName) (jsToLower query)

/-- Wording of claim C2: the fixed zoom range [0.05, 100]. -/
def zoomInRangeB : JSNum → Bool
  | .finite q => decide ((1 : ℚ) / 20 ≤ q ∧ q ≤ 100)
  | _ => false

/-- Projection of a parse outcome onto its dataset (placeholder dataset
for the error case); used to phrase closed witness statements. -/
def getOk : Except String ParseResult → ParseResult
  | .ok r => r
  | .error _ =>
    { nails := []
    , metadata := { fileName := "", totalNails := 0, units := "", date := "" }
    , bounds := { minX := .nan, maxX := .nan, minY := .nan, maxY := .nan } }

/-! ### Concrete sample data used by scenarios and witnesses -/

/-- The input line of concrete scenario A (claim C1). -/
def lineA1 : String := "$A1 10.5 20.25 TP 3 (T) N100 GND T PIN 5"

/-- A dollar row whose x token is the Infinity keyword (claim C4). -/
def lineInf : String := "$A Infinity 2 T G S N"

/-- A dollar row whose token tail contains the virtual-pin marker twice
(claim C5). -/
def lineTwoMarkers : String := "$A 1 2 T G (T) N X T PIN B T PIN C"

/-- An input with a data row between two dated header lines (claim C6). -/
def contentTwoDates : String := "1-Jan-2024 10:00 line\n$A 1 2 T G S N\n2-Feb-2025 12:34 end"

/-- An input whose second line mentions both unit systems (claim C10). -/
def contentBothUnits : String := "$A 1 2 T G S N\nMetric units and Imperial units"

/-- An input with two accepted rows (claim C8 witness). -/
def contentTwoRows : String := "$A 1 2 T G S N\n$B 5 6 T G S N"

/-- A point record with only presentation-irrelevant fields filled in. -/
def mkPin (id : String) (x y : ℚ) (netName : String) : NailData :=
  { id := id, x := .finite x, y := .finite y, type := "", grid := "",
    side := "", netId := "", netName := netName, virtualPin := "" }

/-- The three points of concrete scenario D (claim C9). -/
def scenarioNails : List NailData :=
  [mkPin "a" 0 0 "GNDnet", mkPin "b" 0 0 "POWER", mkPin "c" 0 0 "network2"]

/-- The two-point dataset of concrete scenario C (claim C3): P1 at the
origin and P2 at (100, 100), with the bounds a parse would compute. -/
def samplePR : ParseResult :=
  { nails := [mkPin "P1" 0 0 "", mkPin "P2" 100 100 ""]
  , metadata := { fileName := "s.asc", totalNails := 2, units := "Unknown", date := "" }
  , bounds := { minX := .finite 0, maxX := .finite 100, minY := .finite 0, maxY := .finite 100 } }

/-- The default view of scenario C: zoom one, offset zero. -/
def defaultView : ViewState := { zoom := .finite 1, offsetX := .finite 0, offsetY := .finite 0 }

/-! ## Lemmas: arithmetic on finite numbers -/

theorem jsAdd_finite (a b : ℚ) : jsAdd (.finite a) (.finite b) = .finite (a + b) := rfl

theorem jsSub_finite (a b : ℚ) : jsSub (.finite a) (.finite b) = .finite (a - b) := rfl

theorem jsMul_finite (a b : ℚ) : jsMul (.finite a) (.finite b) = .finite (a * b) := rfl

theorem jsDiv_finite (a b : ℚ) (hb : b ≠ 0) :
    jsDiv (.finite a) (.finite b) = .finite (a / b) := by
  simp [jsDiv, hb]

theorem jsMax_finite (a b : ℚ) : jsMax (.finite a) (.finite b) = .finite (max a b) := by
  by_cases h : a ≤ b <;> simp [jsMax, jsLe, JSNum.isNaN, h, max_def]

theorem jsMin_finite (a b : ℚ) : jsMin (.finite a) (.finite b) = .finite (min a b) := by
  by_cases h : a ≤ b <;> simp [jsMin, jsLe, JSNum.isNaN, h, min_def]

/-! ## Claim C2: the zoom range -/

/-- Claim C2 (counterexample): the claim says every zoom-changing
operation clamps into [0.05, 100]; but the discrete step control
multiplies 100 by 1.5 with no clamp, leaving the range. -/
theorem c2_step_counterexample :
    zoomInRangeB (.finite 100) = true ∧
    zoomStepIn (.finite 100) = .finite 150 ∧
    zoomInRangeB (zoomStepIn (.finite 100)) = false := by
  refine ⟨by with_unfolding_all decide, by with_unfolding_all decide,
    by with_unfolding_all decide⟩

/-- Claim C2 (amended): wheel input multiplies the zoom by 0.9 or 1.1
and clamps the product into [0.05, 100], so a wheel step always lands in
the range; the discrete step controls multiply by 1.5 or 0.7 without
clamping, and can take an in-range zoom out of the range. -/
theorem c2_zoom_clamped_amended :
    (∀ (q : ℚ) (d : JSNum), zoomInRangeB (handleWheel d (.finite q)) = true) ∧
    (∀ z : JSNum, zoomStepIn z = jsMul z (.finite (3 / 2)) ∧
      zoomStepOut z = jsMul z (.finite (7 / 10))) ∧
    (∃ z : JSNum, zoomInRangeB z = true ∧ zoomInRangeB (zoomStepIn z) = false) := by
  refine ⟨?_, fun z => ⟨rfl, rfl⟩,
    ⟨.finite 100, by with_unfolding_all decide, by with_unfolding_all decide⟩⟩
  intro q d
  unfold handleWheel
  rcases h : jsLt (.finite 0) d with _ | _ <;>
    simp only [h, if_true, if_false, Bool.false_eq_true, jsMul_finite, jsMax_finite,
      jsMin_finite, zoomInRangeB, decide_eq_true_eq] <;>
  constructor <;>
  first
    | exact le_min (le_trans (by norm_num) (le_max_right _ _)) (by norm_num)
    | exact min_le_right _ _

/-! ## Claim C1: concrete scenario A -/

/-- Claim C1 (counterexample): on the scenario-A line the parser keeps
the dollar marker inside the id: the single produced point has id equal
to the dollar-A1 token, not A1. -/
theorem c1_id_counterexample :
    (parseNailFile lineA1 "a.asc").toOption.map (fun r => r.nails.map (fun n => n.id)) =
      some ["$A1"] ∧ ("$A1" : String) ≠ "A1" := by
  exact ⟨by with_unfolding_all decide, by decide⟩

/-- Claim C1 (amended): parsing the scenario-A line produces exactly one
point with id the full first token (dollar marker included), x 10.5,
y 20.25, type TP, grid 3, side T with the parentheses stripped, netId
N100, netName GND and virtualPin 5. -/
theorem c1_scenarioA_amended :
    (parseNailFile lineA1 "a.asc").toOption.map (fun r => r.nails) =
      some [{ id := "$A1", x := .finite (21 / 2), y := .finite (81 / 4), type := "TP",
              grid := "3", side := "T", netId := "N100", netName := "GND",
              virtualPin := "5" }] := by
  with_unfolding_all decide

/-! ## Claim C3: focus centering -/

/-- Claim C3: for a dataset with finite bounds and any point of it with
finite coordinates, focusing that point from any finite zoom forces the
zoom to the maximum of the current zoom and 10, sets the offset per axis
to the logical viewport centre divided by the new zoom minus the point
coordinate, and thereby maps the point exactly onto the geometric centre
of the padded logical frame under the scale-translate view transform; in
particular scenario C holds for the two-point dataset P1, P2. -/
theorem c3_focus_centers :
    (∀ (pr : ParseResult) (pid : String) (vs : ViewState) (pin : NailData)
        (mnx mxx mny mxy px py z : ℚ),
      pr.nails.find? (fun n => n.id == pid) = some pin →
      pid ≠ "" →
      pr.bounds = { minX := .finite mnx, maxX := .finite mxx,
                    minY := .finite mny, maxY := .finite mxy } →
      pin.x = .finite px → pin.y = .finite py → vs.zoom = .finite z →
      (focusOn pr pid vs).zoom = .finite (max z 10) ∧
      (focusOn pr pid vs).offsetX = .finite ((mnx + mxx) / 2 / max z 10 - px) ∧
      (focusOn pr pid vs).offsetY = .finite ((mny + mxy) / 2 / max z 10 - py) ∧
      applyView (focusOn pr pid vs) pin.x pin.y =
        (.finite ((mnx + mxx) / 2), .finite ((mny + mxy) / 2))) ∧
    (focusOn samplePR "P2" defaultView =
        { zoom := .finite 10, offsetX := .finite (-95), offsetY := .finite (-95) } ∧
     applyView (focusOn samplePR "P2" defaultView) (.finite 100) (.finite 100) =
        (.finite 50, .finite 50)) := by
  constructor
  · intro pr pid vs pin mnx mxx mny mxy px py z hfind hpid hb hx hy hz
    have hzpos : (0 : ℚ) < max z 10 := lt_of_lt_of_le (by norm_num) (le_max_right z 10)
    have hzne : max z 10 ≠ 0 := ne_of_gt hzpos
    have hcx : mnx - 20 + (mxx - mnx + 20 * 2) / 2 = (mnx + mxx) / 2 := by ring
    have hcy : mny - 20 + (mxy - mny + 20 * 2) / 2 = (mny + mxy) / 2 := by ring
    have hfocus : focusOn pr pid vs =
        { zoom := .finite (max z 10)
        , offsetX := .finite ((mnx + mxx) / 2 / max z 10 - px)
        , offsetY := .finite ((mny + mxy) / 2 / max z 10 - py) } := by
      unfold focusOn
      rw [if_neg hpid, hfind]
      simp only [hb, hx, hy, hz, jsSub_finite, jsMul_finite, jsAdd_finite, jsMax_finite]
      rw [jsDiv_finite _ _ (by norm_num : (2 : ℚ) ≠ 0),
        jsDiv_finite _ _ (by norm_num : (2 : ℚ) ≠ 0), jsAdd_finite, jsAdd_finite,
        jsDiv_finite _ _ hzne, jsDiv_finite _ _ hzne, jsSub_finite, jsSub_finite,
        hcx, hcy]
    refine ⟨by rw [hfocus], by rw [hfocus], by rw [hfocus], ?_⟩
    rw [hfocus, hx, hy]
    unfold applyView
    simp only [jsAdd_finite, jsMul_finite]
    have hmapx : max z 10 * (px + ((mnx + mxx) / 2 / max z 10 - px)) = (mnx + mxx) / 2 := by
      field_simp
      ring
    have hmapy : max z 10 * (py + ((mny + mxy) / 2 / max z 10 - py)) = (mny + mxy) / 2 := by
      field_simp
      ring
    rw [hmapx, hmapy]
  · exact ⟨by with_unfolding_all decide, by with_unfolding_all decide⟩

/-- Witness for claim C3: the general statement applied to the concrete
scenario-C dataset. -/
theorem c3_focus_centers_witness :
    (focusOn samplePR "P2" defaultView).zoom = .finite (max 1 10) ∧
    applyView (focusOn samplePR "P2" defaultView) (.finite 100) (.finite 100) =
      (.finite ((0 + 100) / 2), .finite ((0 + 100) / 2)) := by
  have h := c3_focus_centers.1 samplePR "P2" defaultView (mkPin "P2" 100 100 "")
      0 100 0 100 100 100 1 (by with_unfolding_all decide) (by decide) rfl rfl rfl rfl
  exact ⟨h.1, h.2.2.2⟩

/-! ## Claim C7: search cycling -/

/-- Adding one on the left of an emod result does not change the class. -/
theorem emod_succ_step (a L : Int) : (a % L + 1) % L = (a + 1) % L := by
  rw [Int.add_emod (a % L) 1, Int.emod_emod_of_dvd a dvd_rfl, ← Int.add_emod]

/-- Closed form for the controller state after k Enter presses from a
reset index, for a non-empty fixed match list. -/
theorem cycleIter_spec (results : List NailData) (st0 : SearchNav)
    (hm : 0 < results.length) :
    ∀ k, 1 ≤ k →
      cycleIter results k (resetIndex st0) =
        { activeResultIndex := ((k : Int) - 1) % (results.length : Int)
        , activePinId :=
            (results[(((k : Int) - 1) % (results.length : Int)).toNat]?).map
              (fun n => n.id) } := by
  intro k hk
  induction k with
  | zero => omega
  | succ k ih =>
    cases k with
    | zero =>
      show cycleEnter results (cycleIter results 0 (resetIndex st0)) = _
      simp only [cycleIter]
      unfold cycleEnter resetIndex
      rw [if_pos hm]
      norm_num
    | succ j =>
      have ih' := ih (by omega)
      show cycleEnter results (cycleIter results (j + 1) (resetIndex st0)) = _
      rw [ih']
      unfold cycleEnter
      rw [if_pos hm]
      have hcast1 : ((j + 1 : ℕ) : Int) - 1 = (j : Int) := by push_cast; ring
      have hcast2 : ((j + 1 + 1 : ℕ) : Int) - 1 = (j : Int) + 1 := by push_cast; ring
      simp only [hcast1, hcast2, emod_succ_step]

/-- Claim C7: from the reset state (index minus one, restored whenever
the query or mode changes), after k Enter presses against a fixed match
list of positive length m the selected index is (k-1) mod m and the
emitted focus target is the id of that match; an Enter press with zero
matches changes nothing. -/
theorem c7_cycle_invariant :
    (∀ (results : List NailData) (st0 : SearchNav) (k : Nat),
      0 < results.length → 1 ≤ k →
      (cycleIter results k (resetIndex st0)).activeResultIndex =
        ((k : Int) - 1) % (results.length : Int) ∧
      ∃ p, results[(((k : Int) - 1) % (results.length : Int)).toNat]? = some p ∧
        (cycleIter results k (resetIndex st0)).activePinId = some p.id) ∧
    (∀ st : SearchNav, cycleEnter [] st = st) := by
  constructor
  · intro results st0 k hm hk
    have hmZ : (0 : Int) < (results.length : Int) := by exact_mod_cast hm
    have hnn : 0 ≤ ((k : Int) - 1) % (results.length : Int) :=
      Int.emod_nonneg _ (ne_of_gt hmZ)
    have hlt : ((k : Int) - 1) % (results.length : Int) < (results.length : Int) :=
      Int.emod_lt_of_pos _ hmZ
    have htn : (((k : Int) - 1) % (results.length : Int)).toNat < results.length := by
      omega
    have hrec := cycleIter_spec results st0 hm k hk
    refine ⟨by rw [hrec], results[(((k : Int) - 1) % (results.length : Int)).toNat], ?_, ?_⟩
    · exact List.getElem?_eq_getElem htn
    · rw [hrec]
      simp only [List.getElem?_eq_getElem htn]
      rfl
  · intro st
    rfl

/-- Witness for claim C7: five Enter presses against the three scenario
points select index (5-1) mod 3. -/
theorem c7_cycle_invariant_witness :
    (cycleIter scenarioNails 5
      (resetIndex { activeResultIndex := 7, activePinId := none })).activeResultIndex =
      ((5 : Int) - 1) % (scenarioNails.length : Int) :=
  (c7_cycle_invariant.1 scenarioNails { activeResultIndex := 7, activePinId := none } 5
    (by decide) (by norm_num)).1

/-! ## Claim C9: search semantics -/

/-- Claim C9: a blank query yields no results; a non-blank query yields
exactly the dataset points whose id (nail mode) or net name (net mode)
contains the query case-insensitively, in dataset order, without
deduplication (the result is a filter of the dataset sequence); and
scenario D returns the first and third of the three sample points. -/
theorem c9_search_filter :
    (∀ (nails : List NailData) (q : String) (mode : SearchMode),
      jsTrim q.data = [] → filteredResults nails q mode = []) ∧
    (∀ (nails : List NailData) (q : String) (mode : SearchMode),
      jsTrim q.data ≠ [] →
      filteredResults nails q mode = nails.filter (matchesQuery mode q)) ∧
    filteredResults scenarioNails "net" .net =
      [mkPin "a" 0 0 "GNDnet", mkPin "c" 0 0 "network2"] := by
  refine ⟨?_, ?_, by with_unfolding_all decide⟩
  · intro nails q mode h
    unfold filteredResults
    rw [if_pos h]
  · intro nails q mode h
    unfold filteredResults
    rw [if_neg h]
    cases mode <;> rfl

/-- Witness for claim C9: the filter characterisation applied to a
concrete non-blank query. -/
theorem c9_search_filter_witness :
    filteredResults scenarioNails "abc" SearchMode.nail =
      scenarioNails.filter (matchesQuery SearchMode.nail "abc") :=
  c9_search_filter.2.1 scenarioNails "abc" SearchMode.nail (by decide)

/-! ## Lemmas: the scan loop, one component at a time -/

theorem scanLine_nails (st : ScanState) (l : List Char) :
    (scanLine st l).nails = st.nails ++ (rowOf l).toList := by
  unfold scanLine rowOf
  by_cases hh : (jsTrim l).head? = some '$'
  · cases hp : parseRow (jsTrim l) <;> simp [hh, hp]
  · simp [hh]

theorem scanLine_units (st : ScanState) (l : List Char) :
    (scanLine st l).units = unitsStep st.units l := by
  unfold scanLine unitsStep
  by_cases h1 : hasOcc "Imperial units".data (jsTrim l) = true <;>
    by_cases h2 : hasOcc "Metric units".data (jsTrim l) = true <;>
      simp [h1, h2]

theorem dateFullWith_core (ds cs : List Char) (m : List Char)
    (h : dateFullWith ds cs = some m) : (dateCore cs).isSome = true := by
  unfold dateFullWith at h
  cases hc : dateCore cs
  · rw [hc] at h; exact absurd h (by simp)
  · simp

theorem dateFullAt_guard (cs : List Char) (m : List Char)
    (h : dateFullAt cs = some m) : dateGuardAt cs = true := by
  cases cs with
  | nil => simp [dateFullAt] at h
  | cons d1 r =>
    cases r with
    | nil =>
      simp only [dateFullAt] at h
      simp only [dateGuardAt]
      cases hd1 : d1.isDigit with
      | false => rw [if_neg (by simp [hd1])] at h; exact absurd h (by simp)
      | true =>
        rw [if_pos hd1] at h
        rw [if_pos (show true = true from rfl)]
        cases hv : dateFullWith [d1] [] with
        | none => rw [hv] at h; exact absurd h (by simp)
        | some v => exact dateFullWith_core [d1] [] v hv
    | cons d2 r2 =>
      simp only [dateFullAt] at h
      simp only [dateGuardAt]
      cases hd1 : d1.isDigit with
      | false => rw [if_neg (by simp [hd1])] at h; exact absurd h (by simp)
      | true =>
        rw [if_pos hd1] at h
        rw [if_pos (show true = true from rfl)]
        cases hd2 : d2.isDigit with
        | false =>
          rw [if_neg (by simp [hd2])] at h
          rw [if_neg (show ¬(false = true) by simp)]
          exact dateFullWith_core [d1] (d2 :: r2) m h
        | true =>
          rw [if_pos hd2] at h
          rw [if_pos (show true = true from rfl)]
          cases h2 : dateFullWith [d1, d2] r2 with
          | some v =>
            rw [dateFullWith_core [d1, d2] r2 v h2]
            simp
          | none =>
            rw [h2] at h
            rw [dateFullWith_core [d1] (d2 :: r2) m h]
            simp

theorem dateSearch_guard (cs : List Char) (m : List Char)
    (h : dateSearch cs = some m) : dateGuardSearch cs = true := by
  induction cs with
  | nil => simp [dateSearch] at h
  | cons c rest ih =>
    unfold dateSearch at h
    unfold dateGuardSearch
    cases hf : dateFullAt (c :: rest) with
    | some v =>
      rw [dateFullAt_guard (c :: rest) v hf]
      simp
    | none =>
      rw [hf] at h
      rw [ih h]
      simp

theorem scanLine_date (st : ScanState) (l : List Char) :
    (scanLine st l).date = dateStep st.date l := by
  cases hs : dateSearch (jsTrim l) with
  | some m => simp [scanLine, dateStep, dateSearch_guard _ _ hs, hs]
  | none =>
    by_cases hg : dateGuardSearch (jsTrim l) = true <;>
      simp [scanLine, dateStep, hg, hs]

theorem foldl_scanLine_nails (lines : List (List Char)) :
    ∀ st : ScanState,
      (lines.foldl scanLine st).nails = st.nails ++ lines.filterMap rowOf := by
  induction lines with
  | nil => intro st; simp
  | cons l ls ih =>
    intro st
    show ((ls.foldl scanLine (scanLine st l))).nails = _
    rw [ih (scanLine st l), scanLine_nails]
    cases hr : rowOf l <;> simp [hr]

theorem foldl_scanLine_units (lines : List (List Char)) :
    ∀ st : ScanState,
      (lines.foldl scanLine st).units = lines.foldl unitsStep st.units := by
  induction lines with
  | nil => intro st; rfl
  | cons l ls ih =>
    intro st
    show ((ls.foldl scanLine (scanLine st l))).units = _
    rw [ih (scanLine st l), scanLine_units]
    rfl

theorem foldl_scanLine_date (lines : List (List Char)) :
    ∀ st : ScanState,
      (lines.foldl scanLine st).date = lines.foldl dateStep st.date := by
  induction lines with
  | nil => intro st; rfl
  | cons l ls ih =>
    intro st
    show ((ls.foldl scanLine (scanLine st l))).date = _
    rw [ih (scanLine st l), scanLine_date]
    rfl

/-- Closed form of parseNailFile in terms of the accepted rows and the
per-component folds. -/
theorem parseNailFile_eq (c f : String) :
    parseNailFile c f =
      if acceptedRows c = [] then
        .error "No valid nail data found. Please ensure the file is in Tebo-ICT or compatible .asc format."
      else
        .ok { nails := acceptedRows c
            , metadata := { fileName := f, totalNails := (acceptedRows c).length,
                            units := (splitLines c.data).foldl unitsStep "Unknown",
                            date := (splitLines c.data).foldl dateStep "" }
            , bounds := { minX := jsMinList ((acceptedRows c).map (fun n => n.x))
                        , maxX := jsMaxList ((acceptedRows c).map (fun n => n.x))
                        , minY := jsMinList ((acceptedRows c).map (fun n => n.y))
                        , maxY := jsMaxList ((acceptedRows c).map (fun n => n.y)) } } := by
  have hn : ((splitLines c.data).foldl scanLine
      { units := "Unknown", date := "", nails := [] }).nails = acceptedRows c := by
    rw [foldl_scanLine_nails]
    rfl
  have hu : ((splitLines c.data).foldl scanLine
      { units := "Unknown", date := "", nails := [] }).units =
      (splitLines c.data).foldl unitsStep "Unknown" := foldl_scanLine_units _ _
  have hd : ((splitLines c.data).foldl scanLine
      { units := "Unknown", date := "", nails := [] }).date =
      (splitLines c.data).foldl dateStep "" := foldl_scanLine_date _ _
  simp only [parseNailFile, hn, hu, hd]
  by_cases he : acceptedRows c = []
  · rw [if_pos (by rw [he]; rfl), if_pos he]
  · rw [if_neg (by simpa [List.length_eq_zero] using he), if_neg he]

/-! ## Claim C10: Imperial precedence over Metric -/

theorem unitsStep_neither (u : String) (l : List Char)
    (hm : hasOcc "Metric units".data (jsTrim l) = false)
    (hi : hasOcc "Imperial units".data (jsTrim l) = false) :
    unitsStep u l = u := by
  unfold unitsStep
  simp [hm, hi]

theorem foldl_unitsStep_const (post : List (List Char)) (u : String)
    (h : ∀ l ∈ post, hasOcc "Metric units".data (jsTrim l) = false ∧
      hasOcc "Imperial units".data (jsTrim l) = false) :
    post.foldl unitsStep u = u := by
  induction post generalizing u with
  | nil => rfl
  | cons l ls ih =>
    have h0 := h l (by simp)
    rw [List.foldl_cons, unitsStep_neither u l h0.1 h0.2]
    exact ih u (fun x hx => h x (by simp [hx]))

/-- Claim C10: on any single scan step a line whose trimmed form
contains both unit substrings sets units to Imperial (the Imperial check
runs after the Metric one); consequently, when such a line is followed
only by lines mentioning neither substring, the parsed dataset records
Imperial units. -/
theorem c10_imperial_precedence :
    (∀ (st : ScanState) (l : List Char),
      hasOcc "Metric units".data (jsTrim l) = true →
      hasOcc "Imperial units".data (jsTrim l) = true →
      (scanLine st l).units = "Imperial") ∧
    (∀ (content f : String) (r : ParseResult) (pre : List (List Char))
        (line : List Char) (post : List (List Char)),
      splitLines content.data = pre ++ line :: post →
      hasOcc "Metric units".data (jsTrim line) = true →
      hasOcc "Imperial units".data (jsTrim line) = true →
      (∀ l ∈ post, hasOcc "Metric units".data (jsTrim l) = false ∧
        hasOcc "Imperial units".data (jsTrim l) = false) →
      parseNailFile content f = .ok r →
      r.metadata.units = "Imperial") := by
  constructor
  · intro st l hm hi
    rw [scanLine_units]
    unfold unitsStep
    simp [hm, hi]
  · intro content f r pre line post hsplit hm hi hpost hok
    rw [parseNailFile_eq] at hok
    by_cases he : acceptedRows content = []
    · rw [if_pos he] at hok; exact absurd hok (by simp)
    · rw [if_neg he] at hok
      injection hok with hr
      subst hr
      show (splitLines content.data).foldl unitsStep "Unknown" = "Imperial"
      rw [hsplit, List.foldl_append, List.foldl_cons]
      rw [show unitsStep ((pre.foldl unitsStep "Unknown")) line = "Imperial" by
        unfold unitsStep; simp [hm, hi]]
      exact foldl_unitsStep_const post "Imperial" hpost

/-- Witness for claim C10: the concrete both-units input parses to an
Imperial dataset. -/
theorem c10_imperial_precedence_witness :
    (getOk (parseNailFile contentBothUnits "u.asc")).metadata.units = "Imperial" := by
  refine c10_imperial_precedence.2 contentBothUnits "u.asc" _
      ["$A 1 2 T G S N".data] "Metric units and Imperial units".data [] ?_ ?_ ?_ ?_ ?_
  · decide
  · decide
  · decide
  · intro l hl; exact absurd hl (List.not_mem_nil l)
  · with_unfolding_all rfl

/-! ## Claim C6: the last dated line wins -/

theorem findSome?_append {α β : Type} (f : α → Option β) (l1 l2 : List α) :
    (l1 ++ l2).findSome? f =
      match l1.findSome? f with
      | some b => some b
      | none => l2.findSome? f := by
  induction l1 with
  | nil => simp [List.findSome?]
  | cons a l ih =>
    simp only [List.cons_append, List.findSome?]
    cases f a <;> simp [ih]

theorem foldl_dateStep_eq (lines : List (List Char)) :
    ∀ d : String,
      lines.foldl dateStep d =
        match lines.reverse.findSome? (fun l => dateSearch (jsTrim l)) with
        | some m => String.mk m
        | none => d := by
  induction lines with
  | nil => intro d; rfl
  | cons l ls ih =>
    intro d
    rw [List.foldl_cons, ih (dateStep d l), List.reverse_cons, findSome?_append]
    cases hs : ls.reverse.findSome? (fun x => dateSearch (jsTrim x)) with
    | some m => rfl
    | none =>
      cases hd : dateSearch (jsTrim l) <;>
        simp [dateStep, hd, List.findSome?]

/-- Claim C6: the recorded date of every successfully parsed dataset is
the full match of the date-time pattern on the last line that has one
(later matching lines overwrite earlier ones), and the empty string when
no line matches. -/
theorem c6_last_date_wins :
    ∀ (content f : String) (r : ParseResult),
      parseNailFile content f = .ok r →
      r.metadata.date = lastDateSpec (splitLines content.data) := by
  intro content f r hok
  rw [parseNailFile_eq] at hok
  by_cases he : acceptedRows content = []
  · rw [if_pos he] at hok; exact absurd hok (by simp)
  · rw [if_neg he] at hok
    injection hok with hr
    subst hr
    show (splitLines content.data).foldl dateStep "" = lastDateSpec (splitLines content.data)
    rw [foldl_dateStep_eq]
    unfold lastDateSpec
    cases (splitLines content.data).reverse.findSome? (fun l => dateSearch (jsTrim l)) <;> rfl

/-- Witness for claim C6: the two-date input records the later date. -/
theorem c6_last_date_wins_witness :
    (getOk (parseNailFile contentTwoDates "d.asc")).metadata.date = "2-Feb-2025 12:34" := by
  rw [c6_last_date_wins contentTwoDates "d.asc"
    (getOk (parseNailFile contentTwoDates "d.asc")) (by with_unfolding_all rfl)]
  decide

/-! ## Claim C4: failure exactly on zero accepted rows -/

theorem parseRow_isSome (t : List Char) :
    (parseRow t).isSome =
      (decide (7 ≤ (splitWs t).length) &&
        !(parseFloatJS ((splitWs t).getD 1 [])).isNaN &&
        !(parseFloatJS ((splitWs t).getD 2 [])).isNaN) := by
  simp only [parseRow]
  by_cases hlen : 7 ≤ (splitWs t).length
  · rw [if_pos hlen]
    cases hx : (parseFloatJS ((splitWs t).getD 1 [])).isNaN <;>
      cases hy : (parseFloatJS ((splitWs t).getD 2 [])).isNaN <;>
        simp [hx, hy, hlen]
  · rw [if_neg hlen]
    simp [hlen]

theorem rowOf_isSome (l : List Char) : (rowOf l).isSome = rowAcceptedNaNB l := by
  unfold rowOf rowAcceptedNaNB
  by_cases hh : (jsTrim l).head? = some '$'
  · rw [if_pos hh]
    rw [parseRow_isSome]
    simp [hh, Bool.and_assoc]
  · rw [if_neg hh]
    simp [hh]

theorem acceptedRows_nil_iff (c : String) :
    acceptedRows c = [] ↔
      ∀ l ∈ splitLines c.data, rowAcceptedNaNB l = false := by
  unfold acceptedRows
  rw [List.filterMap_eq_nil_iff]
  constructor
  · intro h l hl
    rw [← rowOf_isSome, h l hl]
    rfl
  · intro h l hl
    have := h l hl
    rw [← rowOf_isSome] at this
    exact Option.not_isSome_iff_eq_none.mp (by simp [this])

/-- Claim C4 (counterexample): the claim calls a row valid only when its
coordinates parse to finite numbers; but a row whose x token is the
Infinity keyword parses to a non-NaN infinite number and is accepted, so
the parse succeeds although no line is valid in the claim's sense. -/
theorem c4_finite_counterexample :
    (parseNailFile lineInf "f.asc").toOption.isSome = true ∧
    (splitLines lineInf.data).all (fun l => !rowAcceptedFiniteB l) = true := by
  exact ⟨by with_unfolding_all decide, by with_unfolding_all decide⟩

/-- Claim C4 (amended): the parser throws exactly when no line is
accepted, a line being accepted when its trimmed form starts with the
dollar marker, yields at least seven tokens and both coordinate tokens
parse to non-NaN numbers (the Infinity keyword included); individually
malformed rows are dropped silently and never make the parse fail, and
the error message names the expected compatible formats. -/
theorem c4_throw_iff_no_accepted :
    (∀ (content f : String),
      (∃ msg, parseNailFile content f = .error msg) ↔
        (∀ l ∈ splitLines content.data, rowAcceptedNaNB l = false)) ∧
    (∀ (content f msg : String), parseNailFile content f = .error msg →
      jsIncludes msg "Tebo-ICT" = true ∧ jsIncludes msg ".asc format" = true) := by
  constructor
  · intro content f
    rw [parseNailFile_eq]
    by_cases he : acceptedRows content = []
    · rw [if_pos he]
      constructor
      · intro _
        exact (acceptedRows_nil_iff content).mp he
      · intro _
        exact ⟨_, rfl⟩
    · rw [if_neg he]
      constructor
      · intro ⟨msg, hmsg⟩
        exact absurd hmsg (by simp)
      · intro hall
        exact absurd ((acceptedRows_nil_iff content).mpr hall) he
  · intro content f msg hmsg
    rw [parseNailFile_eq] at hmsg
    by_cases he : acceptedRows content = []
    · rw [if_pos he] at hmsg
      injection hmsg with hm
      subst hm
      exact ⟨by decide, by decide⟩
    · rw [if_neg he] at hmsg
      exact absurd hmsg (by simp)

/-- Witness for claim C4: the no-data error message on a rowless input
names the compatible formats. -/
theorem c4_throw_iff_no_accepted_witness :
    jsIncludes "No valid nail data found. Please ensure the file is in Tebo-ICT or compatible .asc format." "Tebo-ICT" = true ∧
    jsIncludes "No valid nail data found. Please ensure the file is in Tebo-ICT or compatible .asc format." ".asc format" = true :=
  c4_throw_iff_no_accepted.2 "hello" "f.asc"
    "No valid nail data found. Please ensure the file is in Tebo-ICT or compatible .asc format."
    (by with_unfolding_all rfl)

/-! ## Claim C8: the bounds invariant -/

theorem jsLe_refl (a : JSNum) (h : a.isNaN = false) : jsLe a a = true := by
  cases a <;> simp [jsLe, JSNum.isNaN] at h ⊢

theorem jsLe_of_not_jsLe (a b : JSNum) (ha : a.isNaN = false) (hb : b.isNaN = false)
    (h : ¬jsLe a b = true) : jsLe b a = true := by
  cases a <;> cases b <;>
    simp [jsLe, JSNum.isNaN] at h ha hb ⊢
  exact le_of_lt h

theorem jsLe_trans (a b c : JSNum) (hab : jsLe a b = true) (hbc : jsLe b c = true) :
    jsLe a c = true := by
  cases a <;> cases b <;> cases c <;>
    simp_all [jsLe]
  exact le_trans hab hbc

theorem jsMin_notNaN (a b : JSNum) (ha : a.isNaN = false) (hb : b.isNaN = false) :
    (jsMin a b).isNaN = false := by
  unfold jsMin
  rw [ha, hb]
  rw [if_neg (by simp)]
  split
  · exact ha
  · exact hb

theorem jsMax_notNaN (a b : JSNum) (ha : a.isNaN = false) (hb : b.isNaN = false) :
    (jsMax a b).isNaN = false := by
  unfold jsMax
  rw [ha, hb]
  rw [if_neg (by simp)]
  split
  · exact hb
  · exact ha

theorem jsLe_jsMin_left (a b : JSNum) (ha : a.isNaN = false) (hb : b.isNaN = false) :
    jsLe (jsMin a b) a = true := by
  unfold jsMin
  rw [ha, hb]
  rw [if_neg (by simp)]
  by_cases h : jsLe a b = true
  · rw [if_pos h]
    exact jsLe_refl a ha
  · rw [if_neg h]
    exact jsLe_of_not_jsLe a b ha hb h

theorem jsLe_jsMin_right (a b : JSNum) (ha : a.isNaN = false) (hb : b.isNaN = false) :
    jsLe (jsMin a b) b = true := by
  unfold jsMin
  rw [ha, hb]
  rw [if_neg (by simp)]
  by_cases h : jsLe a b = true
  · rw [if_pos h]
    exact h
  · rw [if_neg h]
    exact jsLe_refl b hb

theorem jsLe_jsMax_left (a b : JSNum) (ha : a.isNaN = false) (hb : b.isNaN = false) :
    jsLe a (jsMax a b) = true := by
  unfold jsMax
  rw [ha, hb]
  rw [if_neg (by simp)]
  by_cases h : jsLe a b = true
  · rw [if_pos h]
    exact h
  · rw [if_neg h]
    exact jsLe_refl a ha

theorem jsLe_jsMax_right (a b : JSNum) (ha : a.isNaN = false) (hb : b.isNaN = false) :
    jsLe b (jsMax a b) = true := by
  unfold jsMax
  rw [ha, hb]
  rw [if_neg (by simp)]
  by_cases h : jsLe a b = true
  · rw [if_pos h]
    exact jsLe_refl b hb
  · rw [if_neg h]
    exact jsLe_of_not_jsLe a b ha hb h

theorem foldl_jsMin_le (xs : List JSNum) :
    ∀ acc : JSNum, acc.isNaN = false → (∀ x ∈ xs, x.isNaN = false) →
      (xs.foldl jsMin acc).isNaN = false ∧
      jsLe (xs.foldl jsMin acc) acc = true ∧
      ∀ x ∈ xs, jsLe (xs.foldl jsMin acc) x = true := by
  induction xs with
  | nil => intro acc ha _; exact ⟨ha, jsLe_refl acc ha, by simp⟩
  | cons x xs ih =>
    intro acc ha hx
    have hxh : x.isNaN = false := hx x (by simp)
    have hmin : (jsMin acc x).isNaN = false := jsMin_notNaN acc x ha hxh
    obtain ⟨h1, h2, h3⟩ := ih (jsMin acc x) hmin (fun y hy => hx y (by simp [hy]))
    refine ⟨h1, ?_, ?_⟩
    · exact jsLe_trans _ _ _ h2 (jsLe_jsMin_left acc x ha hxh)
    · intro y hy
      rcases List.mem_cons.mp hy with rfl | hy'
      · exact jsLe_trans _ _ _ h2 (jsLe_jsMin_right acc y ha hxh)
      · exact h3 y hy'

theorem foldl_jsMax_ge (xs : List JSNum) :
    ∀ acc : JSNum, acc.isNaN = false → (∀ x ∈ xs, x.isNaN = false) →
      (xs.foldl jsMax acc).isNaN = false ∧
      jsLe acc (xs.foldl jsMax acc) = true ∧
      ∀ x ∈ xs, jsLe x (xs.foldl jsMax acc) = true := by
  induction xs with
  | nil => intro acc ha _; exact ⟨ha, jsLe_refl acc ha, by simp⟩
  | cons x xs ih =>
    intro acc ha hx
    have hxh : x.isNaN = false := hx x (by simp)
    have hmax : (jsMax acc x).isNaN = false := jsMax_notNaN acc x ha hxh
    obtain ⟨h1, h2, h3⟩ := ih (jsMax acc x) hmax (fun y hy => hx y (by simp [hy]))
    refine ⟨h1, ?_, ?_⟩
    · exact jsLe_trans _ _ _ (jsLe_jsMax_left acc x ha hxh) h2
    · intro y hy
      rcases List.mem_cons.mp hy with rfl | hy'
      · exact jsLe_trans _ _ _ (jsLe_jsMax_right acc y ha hxh) h2
      · exact h3 y hy'

theorem parseRow_nonNaN (t : List Char) (n : NailData) (h : parseRow t = some n) :
    n.x.isNaN = false ∧ n.y.isNaN = false := by
  simp only [parseRow] at h
  by_cases hlen : 7 ≤ (splitWs t).length
  · rw [if_pos hlen] at h
    cases hx : (parseFloatJS ((splitWs t).getD 1 [])).isNaN <;>
      cases hy : (parseFloatJS ((splitWs t).getD 2 [])).isNaN <;>
        rw [hx, hy] at h <;> simp at h
    subst h
    exact ⟨by simpa using hx, by simpa using hy⟩
  · rw [if_neg hlen] at h
    exact absurd h (by simp)

theorem acceptedRows_nonNaN (c : String) (n : NailData) (hn : n ∈ acceptedRows c) :
    n.x.isNaN = false ∧ n.y.isNaN = false := by
  obtain ⟨l, hl, hrow⟩ := List.mem_filterMap.mp hn
  unfold rowOf at hrow
  by_cases hh : (jsTrim l).head? = some '$'
  · rw [if_pos hh] at hrow
    exact parseRow_nonNaN _ _ hrow
  · rw [if_neg hh] at hrow
    exact absurd hrow (by simp)

/-- Claim C8: for every successfully parsed dataset the bounds contain
every point coordinate on both axes, and consequently the minima do not
exceed the maxima. -/
theorem c8_bounds_invariant :
    ∀ (content f : String) (r : ParseResult),
      parseNailFile content f = .ok r →
      (∀ n ∈ r.nails,
        jsLe r.bounds.minX n.x = true ∧ jsLe n.x r.bounds.maxX = true ∧
        jsLe r.bounds.minY n.y = true ∧ jsLe n.y r.bounds.maxY = true) ∧
      jsLe r.bounds.minX r.bounds.maxX = true ∧
      jsLe r.bounds.minY r.bounds.maxY = true := by
  intro content f r hok
  rw [parseNailFile_eq] at hok
  by_cases he : acceptedRows content = []
  · rw [if_pos he] at hok
    exact absurd hok (by simp)
  · rw [if_neg he] at hok
    injection hok with hr
    subst hr
    have hxs : ∀ x ∈ (acceptedRows content).map (fun n => n.x), x.isNaN = false := by
      intro x hx
      obtain ⟨n, hn, rfl⟩ := List.mem_map.mp hx
      exact (acceptedRows_nonNaN content n hn).1
    have hys : ∀ y ∈ (acceptedRows content).map (fun n => n.y), y.isNaN = false := by
      intro y hy
      obtain ⟨n, hn, rfl⟩ := List.mem_map.mp hy
      exact (acceptedRows_nonNaN content n hn).2
    obtain ⟨hminx_nn, _, hminx⟩ := foldl_jsMin_le _ JSNum.posInf rfl hxs
    obtain ⟨hmaxx_nn, _, hmaxx⟩ := foldl_jsMax_ge _ JSNum.negInf rfl hxs
    obtain ⟨hminy_nn, _, hminy⟩ := foldl_jsMin_le _ JSNum.posInf rfl hys
    obtain ⟨hmaxy_nn, _, hmaxy⟩ := foldl_jsMax_ge _ JSNum.negInf rfl hys
    obtain ⟨n0, hn0⟩ := List.exists_mem_of_ne_nil _ he
    have hx0 : n0.x ∈ (acceptedRows content).map (fun n => n.x) :=
      List.mem_map.mpr ⟨n0, hn0, rfl⟩
    have hy0 : n0.y ∈ (acceptedRows content).map (fun n => n.y) :=
      List.mem_map.mpr ⟨n0, hn0, rfl⟩
    refine ⟨?_, ?_, ?_⟩
    · intro n hn
      have hnx : n.x ∈ (acceptedRows content).map (fun m => m.x) :=
        List.mem_map.mpr ⟨n, hn, rfl⟩
      have hny : n.y ∈ (acceptedRows content).map (fun m => m.y) :=
        List.mem_map.mpr ⟨n, hn, rfl⟩
      exact ⟨hminx n.x hnx, hmaxx n.x hnx, hminy n.y hny, hmaxy n.y hny⟩
    · exact jsLe_trans _ _ _ (hminx n0.x hx0) (hmaxx n0.x hx0)
    · exact jsLe_trans _ _ _ (hminy n0.y hy0) (hmaxy n0.y hy0)

/-- Witness for claim C8: the bounds of the concrete two-row input. -/
theorem c8_bounds_invariant_witness :
    jsLe (getOk (parseNailFile contentTwoRows "w.asc")).bounds.minX
      (getOk (parseNailFile contentTwoRows "w.asc")).bounds.maxX = true :=
  (c8_bounds_invariant contentTwoRows "w.asc"
    (getOk (parseNailFile contentTwoRows "w.asc")) (by with_unfolding_all rfl)).2.1

/-! ## Claim C5: the virtual pin suffix -/

theorem hasOcc_tpin_eq (cs : List Char) :
    hasOcc tpinLit cs = (afterFirstTPin cs).isSome := by
  induction cs with
  | nil => rfl
  | cons c rest ih =>
    unfold hasOcc afterFirstTPin
    by_cases hp : tpinLit.isPrefixOf (c :: rest) = true <;> simp [hp, ih]

theorem beforeFirstTPin_of_none (cs : List Char) (h : afterFirstTPin cs = none) :
    beforeFirstTPin cs = cs := by
  induction cs with
  | nil => rfl
  | cons c rest ih =>
    unfold afterFirstTPin at h
    unfold beforeFirstTPin
    by_cases hp : tpinLit.isPrefixOf (c :: rest) = true
    · rw [if_pos hp] at h
      exact absurd h (by simp)
    · rw [if_neg hp] at h
      rw [if_neg hp, ih h]

theorem splitTPinAux_eq (cs0 acc0 : List Char) :
    splitTPinAux cs0 acc0 =
      (acc0.reverse ++ beforeFirstTPin cs0) ::
        (match afterFirstTPin cs0 with
         | none => []
         | some r => splitTPinAux r []) := by
  induction cs0, acc0 using splitTPinAux.induct with
  | case1 acc => simp [splitTPinAux, afterFirstTPin, beforeFirstTPin]
  | case2 acc c rest hp ih =>
    have hstep : splitTPinAux (c :: rest) acc = acc.reverse :: splitTPinAux (rest.drop 4) [] := by
      rw [splitTPinAux]
      rw [if_pos hp]
    have hb : beforeFirstTPin (c :: rest) = [] := by
      rw [beforeFirstTPin]
      rw [if_pos hp]
    have ha : afterFirstTPin (c :: rest) = some (rest.drop 4) := by
      rw [afterFirstTPin]
      rw [if_pos hp]
    rw [hstep, hb, ha]
    simp
  | case3 acc c rest hp ih =>
    have hstep : splitTPinAux (c :: rest) acc = splitTPinAux rest (c :: acc) := by
      rw [splitTPinAux]
      rw [if_neg hp]
    have hb : beforeFirstTPin (c :: rest) = c :: beforeFirstTPin rest := by
      rw [beforeFirstTPin]
      rw [if_neg hp]
    have ha : afterFirstTPin (c :: rest) = afterFirstTPin rest := by
      rw [afterFirstTPin]
      rw [if_neg hp]
    rw [hstep, ih, hb, ha]
    simp

theorem splitTPin_getD1 (cs : List Char) :
    (splitTPin cs).getD 1 [] =
      (match afterFirstTPin cs with
       | none => []
       | some r => beforeFirstTPin r) := by
  unfold splitTPin
  rw [splitTPinAux_eq cs []]
  cases ha : afterFirstTPin cs with
  | none => rfl
  | some r =>
    show (splitTPinAux r []).getD 0 [] = beforeFirstTPin r
    rw [splitTPinAux_eq r []]
    cases afterFirstTPin r <;> simp

/-- Claim C5 (counterexample): on a row whose tail holds the marker
twice, the split keeps only the segment between the first and second
markers, while the claim asks for everything after the first marker. -/
theorem c5_after_marker_counterexample :
    (parseNailFile lineTwoMarkers "f.asc").toOption.map
        (fun r => r.nails.map (fun n => n.virtualPin)) = some ["B"] ∧
    String.mk (specVirtualPinAfter (rowTail (jsTrim lineTwoMarkers.data))) = "B T PIN C" ∧
    ("B" : String) ≠ "B T PIN C" := by
  exact ⟨by with_unfolding_all decide, by decide, by decide⟩

/-- Claim C5 (amended): for every accepted row whose tail contains the
marker, the virtual pin is the segment strictly between the first marker
and its next occurrence (to the end of the tail when there is none),
trimmed; for every accepted row whose tail does not contain the marker,
the virtual pin is empty. -/
theorem c5_virtual_pin_between :
    ∀ (t : List Char) (n : NailData), parseRow t = some n →
      (hasOcc tpinLit (rowTail t) = true →
        n.virtualPin = String.mk (specVirtualPinBetween (rowTail t))) ∧
      (hasOcc tpinLit (rowTail t) = false → n.virtualPin = "") := by
  intro t n h
  have hvp : n.virtualPin = String.mk
      (if hasOcc tpinLit (rowTail t) then jsTrim ((splitTPin (rowTail t)).getD 1 []) else []) := by
    simp only [parseRow] at h
    by_cases hlen : 7 ≤ (splitWs t).length
    · rw [if_pos hlen] at h
      cases hx : (parseFloatJS ((splitWs t).getD 1 [])).isNaN <;>
        cases hy : (parseFloatJS ((splitWs t).getD 2 [])).isNaN <;>
          rw [hx, hy] at h <;> simp at h
      subst h
      show String.mk _ = _
      unfold rowTail
      simp [List.getD_eq_getElem?_getD]
    · rw [if_neg hlen] at h
      exact absurd h (by simp)
  constructor
  · intro hocc
    rw [hvp, if_pos hocc]
    unfold specVirtualPinBetween
    rw [splitTPin_getD1]
    rw [hasOcc_tpin_eq] at hocc
    cases ha : afterFirstTPin (rowTail t) with
    | none => rw [ha] at hocc; exact absurd hocc (by simp)
    | some r => rfl
  · intro hocc
    rw [hvp, if_neg (by simp [hocc])]

/-- Witness for claim C5: the two-marker row evaluated through the
amended statement. -/
theorem c5_virtual_pin_between_witness :
    ({ id := "$A", x := .finite 1, y := .finite 2, type := "T", grid := "G",
       side := "T", netId := "N", netName := "X", virtualPin := "B" } : NailData).virtualPin =
      String.mk (specVirtualPinBetween (rowTail (jsTrim lineTwoMarkers.data))) :=
  (c5_virtual_pin_between (jsTrim lineTwoMarkers.data) _
    (by with_unfolding_all decide)).1 (by decide)

end NailSearch
